import Mathlib

/-!
Verification of the sales-analytics dashboard core: the filter-and-aggregation
pipeline of `app/app.py` and the synthetic data generator of
`data/generate_data.py`, shallowly embedded over lists of order records.
Decimal quantities are modelled as rationals; pandas `NaN` results (mean of an
empty column) are modelled as `Option.none`.
-/

namespace SalesDash

/-- One row of the loaded order table (`load_data` in `app/app.py`): the 18 CSV
columns plus the three derived columns `MonthNum`, `DayOfWeek`, `WeekNum`
appended at load time. -/
structure Order where
  OrderID : String
  Date : String
  Month : String
  Quarter : String
  Year : Nat
  Category : String
  Product : String
  UnitPrice : ℚ
  Quantity : Nat
  Discount : Nat
  Revenue : ℚ
  Profit : ℚ
  Region : String
  City : String
  Channel : String
  PaymentMethod : String
  Rating : ℚ
  Returned : Nat
  MonthNum : String
  DayOfWeek : String
  WeekNum : Nat
deriving DecidableEq

/-- The sidebar filter state: the selected values of the four multiselect
widgets (`sel_years`, `sel_cats`, `sel_regions`, `sel_channels`). -/
structure FilterSpec where
  years : List Nat
  categories : List String
  regions : List String
  channels : List String

/-- The filtered table `fdf` of `app/app.py` (lines 88-93): rows whose
`Year`, `Category`, `Region` and `Channel` are each `isin` the corresponding
selection, combined with `&`. -/
def fdf (t : List Order) (s : FilterSpec) : List Order :=
  t.filter fun r =>
    s.years.contains r.Year && s.categories.contains r.Category &&
      s.regions.contains r.Region && s.channels.contains r.Channel

/-- `fdf['Revenue'].sum()`. -/
def total_rev (t : List Order) : ℚ := (t.map Order.Revenue).sum

/-- `fdf['Profit'].sum()`. -/
def total_profit (t : List Order) : ℚ := (t.map Order.Profit).sum

/-- `fdf['Revenue'].mean()`: pandas returns `NaN` on an empty column, modelled
as `none`; otherwise the sum divided by the row count. -/
def avg_order (t : List Order) : Option ℚ :=
  if t.isEmpty then none else some (total_rev t / t.length)

/-- `(total_profit / total_rev * 100) if total_rev > 0 else 0`. -/
def profit_margin (t : List Order) : ℚ :=
  if 0 < total_rev t then total_profit t / total_rev t * 100 else 0

/-- Pandas `Series.round(1)`: round to one decimal place, on rationals. -/
def round1 (q : ℚ) : ℚ := (round (q * 10) : ℚ) / 10

/-- The group keys produced by `DataFrame.groupby(key)`: the distinct key
values of the table, in sorted order. -/
def groupKeys (key : Order → String) (t : List Order) : List String :=
  List.insertionSort (· ≤ ·) (t.map key).dedup

/-- A row of the return-rate view: category, order count, returns, rate. -/
abbrev RetRow := String × Nat × Nat × ℚ

/-- Descending comparison on the `ReturnRate` component, as used by
`sort_values('ReturnRate', ascending=False)`. -/
def rateRel (a b : RetRow) : Prop := b.2.2.2 ≤ a.2.2.2

instance : DecidableRel rateRel := fun a b => inferInstanceAs (Decidable (_ ≤ _))

instance : IsTotal RetRow rateRel := ⟨fun a b => le_total b.2.2.2 a.2.2.2⟩

instance : IsTrans RetRow rateRel := ⟨fun _ _ _ h1 h2 => le_trans h2 h1⟩

/-- The return-rate view (`app/app.py` lines 254-259): group the filtered
table by `Category`, count orders and sum the `Returned` flags per group,
derive `ReturnRate = (Returns / TotalOrders * 100).round(1)`, and sort
descending by rate. -/
def returnsView (t : List Order) : List RetRow :=
  List.insertionSort rateRel <|
    (groupKeys Order.Category t).map fun c =>
      let g := t.filter fun r => r.Category == c
      let rets := (g.map Order.Returned).sum
      (c, g.length, rets, round1 ((rets : ℚ) / (g.length : ℚ) * 100))

/-- The fixed display order `dow_order` of `app/app.py` line 311. -/
def dow_order : List String :=
  ["Monday", "Tuesday", "Wednesday", "Thursday", "Friday", "Saturday", "Sunday"]

/-- The day-of-week view (`app/app.py` lines 312-315): group by `DayOfWeek`
with order count and revenue sum, then `reindex(dow_order)` — one row per
calendar day Monday..Sunday; a day with no group gets `NaN` measures,
modelled as `none`. -/
def dowView (t : List Order) : List (String × Option (Nat × ℚ)) :=
  dow_order.map fun d =>
    let g := t.filter fun r => r.DayOfWeek == d
    (d, if g.isEmpty then none else some (g.length, (g.map Order.Revenue).sum))

/-- Descending comparison on the revenue component of a category-breakdown
row, as used by `sort_values(ascending=False)`. -/
def revRel (a b : String × ℚ) : Prop := b.2 ≤ a.2

instance : DecidableRel revRel := fun a b => inferInstanceAs (Decidable (_ ≤ _))

instance : IsTotal (String × ℚ) revRel := ⟨fun a b => le_total b.2 a.2⟩

instance : IsTrans (String × ℚ) revRel := ⟨fun _ _ _ h1 h2 => le_trans h2 h1⟩

/-- The category-breakdown view `cat_rev` (`app/app.py` line 160):
`fdf.groupby('Category')['Revenue'].sum().sort_values(ascending=False)`. -/
def cat_rev (t : List Order) : List (String × ℚ) :=
  List.insertionSort revRel <|
    (groupKeys Order.Category t).map fun c =>
      (c, ((t.filter fun r => r.Category == c).map Order.Revenue).sum)

/-- The characters of a string, lower-cased — the common form to which
`str.contains(search, case=False)` reduces both sides for ASCII input. -/
def lcChars (s : String) : List Char := s.data.map Char.toLower

/-- Substring containment on character lists: `containsSub n h` is true iff
`n` occurs contiguously inside `h`. -/
def containsSub (needle : List Char) : List Char → Bool
  | [] => needle.isEmpty
  | c :: t => needle.isPrefixOf (c :: t) || containsSub needle t

/-- The regular-expression metacharacters of Python's `re` module.
`str.contains(term, case=False)` keeps the pandas default `regex=True`, so
the search term is interpreted as a regex; a term containing none of these
characters is matched literally. -/
def regexMeta : List Char := ".^$*+?()[]\x7b\x7d|\\".data

/-- A plain search term: ASCII and free of regex metacharacters. For such a
term the case-insensitive regex search performed by
`str.contains(term, case=False)` coincides with case-insensitive substring
containment (no metacharacter semantics, no `re.error`, no non-ASCII case
folding). -/
def literalTerm (term : String) : Bool :=
  term.data.all fun c => c.toNat < 128 && !(regexMeta.contains c)

/-- Case-insensitive substring containment: the semantics of
`str.contains(term, case=False)` restricted to a plain (`literalTerm`)
search term; for terms with regex metacharacters the program's regex
semantics differ and are not modelled. -/
def containsCI (hay term : String) : Bool := containsSub (lcChars term) (lcChars hay)

/-- `natPad2 n` is `n` rendered in decimal, zero-padded to two digits. -/
def natPad2 (n : Nat) : String := if n < 10 then "0" ++ toString n else toString n

/-- String representation of a rational that carries at most two decimal
places, in the float style pandas prints (`100.0`, `115.5`, `115.25`);
other rationals fall back to a `num/den` rendering. Models `astype(str)` on
the numeric columns. -/
def decStr (q : ℚ) : String :=
  let sign := if q.num < 0 then "-" else ""
  let n := q.num.natAbs
  let d := q.den
  if n * 100 % d = 0 then
    let c := n * 100 / d
    let whole := c / 100
    let cents := c % 100
    if cents = 0 then sign ++ toString whole ++ ".0"
    else if cents % 10 = 0 then sign ++ toString whole ++ "." ++ toString (cents / 10)
    else sign ++ toString whole ++ "." ++ natPad2 cents
  else sign ++ toString n ++ "/" ++ toString d

/-- `row.astype(str)` over a full row of `fdf` (all 21 columns, in the
frame's column order) — the columns the search mask of `app/app.py`
line 336 ranges over. The `Date` column is datetime64 (loaded with
`parse_dates`), so `astype(str)` renders it as the ISO date followed by the
midnight time, `"YYYY-MM-DD 00:00:00"`. -/
def rowStrings (r : Order) : List String :=
  [r.OrderID, r.Date ++ " 00:00:00", r.Month, r.Quarter, toString r.Year,
    r.Category, r.Product, decStr r.UnitPrice, toString r.Quantity,
    toString r.Discount, decStr r.Revenue, decStr r.Profit, r.Region, r.City,
    r.Channel, r.PaymentMethod, decStr r.Rating, toString r.Returned,
    r.MonthNum, r.DayOfWeek, toString r.WeekNum]

/-- String representations of the 13 columns actually displayed by the
raw-data table (`app/app.py` lines 340-341), the datetime `Date` column
again rendered with its midnight time. -/
def displayStrings (r : Order) : List String :=
  [r.OrderID, r.Date ++ " 00:00:00", r.Category, r.Product, toString r.Quantity,
    decStr r.UnitPrice, toString r.Discount, decStr r.Revenue, decStr r.Profit,
    r.Region, r.City, r.Channel, decStr r.Rating]

/-- The raw-data text search (`app/app.py` lines 334-337): an empty term
(falsy in `if search:`) applies no filtering; otherwise a row is kept iff
any of its columns' string representations matches the term
case-insensitively. The per-column match embeds
`str.contains(term, case=False)` via `containsCI`, which is faithful for
plain (`literalTerm`) terms; terms with regex metacharacters trigger the
pandas regex engine instead and are outside this model. -/
def searchFilter (term : String) (t : List Order) : List Order :=
  if term = "" then t
  else t.filter fun r => (rowStrings r).any fun c => containsCI c term

/-!
## Generator (`data/generate_data.py`)

All randomness flows through `np.random`, seeded once with `np.random.seed(42)`.
The PRNG is modelled as an abstract infinite stream of naturals together with a
read position; every sampling helper consumes one draw and returns the advanced
state, so the whole generator is a pure function of the initial stream.
-/

/-- The state of the (seeded) pseudo-random number generator: an infinite
stream of raw draws and the current read position. -/
structure RNG where
  stream : Nat → Nat
  pos : Nat

/-- Consume one raw draw. -/
def RNG.next (g : RNG) : Nat × RNG := (g.stream g.pos, ⟨g.stream, g.pos + 1⟩)

/-- `np.random.randint(0, bound)`: a draw in `[0, bound)`. -/
def randBelow (bound : Nat) (g : RNG) : Nat × RNG :=
  let p := g.next
  (p.1 % bound, p.2)

/-- `np.random.rand()`: a draw in `[0, 1)`, modelled with 4 digits of
granularity. -/
def randFrac (g : RNG) : ℚ × RNG :=
  let p := g.next
  (((p.1 % 10000 : Nat) : ℚ) / 10000, p.2)

/-- `np.random.uniform(lo, hi)`: a draw in `[lo, hi)`. -/
def randUniform (lo hi : ℚ) (g : RNG) : ℚ × RNG :=
  let p := randFrac g
  (lo + (hi - lo) * p.1, p.2)

/-- `np.random.choice(l, ...)`: one element of `l` selected by the draw (the
probability weights `p` affect only the distribution, not the support). -/
def randChoice {α : Type} (l : List α) (dflt : α) (g : RNG) : α × RNG :=
  let p := g.next
  (l.getD (p.1 % l.length) dflt, p.2)

/-- One entry of the `CATEGORIES` reference map: category name, product list
and price range. -/
structure CatInfo where
  name : String
  products : List String
  lo : ℚ
  hi : ℚ
deriving DecidableEq

/-- Placeholder `CatInfo` used as the (never-selected) `getD` default. -/
def dfltCat : CatInfo := ⟨"", [], 0, 0⟩

/-- The `CATEGORIES` reference data of `data/generate_data.py`. -/
def CATEGORIES : List CatInfo :=
  [⟨"Electronics", ["Laptop", "Smartphone", "Tablet", "Headphones", "Smartwatch"], 150, 1200⟩,
   ⟨"Clothing", ["T-Shirt", "Jeans", "Jacket", "Dress", "Shoes"], 20, 200⟩,
   ⟨"Home & Living", ["Sofa", "Lamp", "Bedsheet", "Curtains", "Cookware"], 30, 800⟩,
   ⟨"Books", ["Fiction", "Non-Fiction", "Textbook", "Comic", "Biography"], 10, 80⟩,
   ⟨"Sports", ["Yoga Mat", "Dumbbells", "Cycle", "Tennis Racket", "Shoes"], 25, 500⟩,
   ⟨"Beauty", ["Perfume", "Skincare Kit", "Lipstick", "Hair Dryer", "Serum"], 15, 250⟩]

/-- Product list of a category name, per `CATEGORIES`. -/
def productsOf (c : String) : List String :=
  if c = "Electronics" then ["Laptop", "Smartphone", "Tablet", "Headphones", "Smartwatch"]
  else if c = "Clothing" then ["T-Shirt", "Jeans", "Jacket", "Dress", "Shoes"]
  else if c = "Home & Living" then ["Sofa", "Lamp", "Bedsheet", "Curtains", "Cookware"]
  else if c = "Books" then ["Fiction", "Non-Fiction", "Textbook", "Comic", "Biography"]
  else if c = "Sports" then ["Yoga Mat", "Dumbbells", "Cycle", "Tennis Racket", "Shoes"]
  else if c = "Beauty" then ["Perfume", "Skincare Kit", "Lipstick", "Hair Dryer", "Serum"]
  else []

/-- The `REGIONS` reference list. -/
def REGIONS : List String := ["North", "South", "East", "West", "Central"]

/-- The `CITIES` reference map, as a lookup from region name. -/
def citiesOf (r : String) : List String :=
  if r = "North" then ["Delhi", "Chandigarh", "Amritsar"]
  else if r = "South" then ["Bangalore", "Chennai", "Hyderabad"]
  else if r = "East" then ["Kolkata", "Bhubaneswar", "Patna"]
  else if r = "West" then ["Mumbai", "Pune", "Ahmedabad"]
  else if r = "Central" then ["Bhopal", "Indore", "Nagpur"]
  else []

/-- The `CHANNELS` reference list. -/
def CHANNELS : List String := ["Website", "Mobile App", "Marketplace", "Direct"]

/-- The `PAYMENT` reference list. -/
def PAYMENT : List String := ["Credit Card", "Debit Card", "UPI", "Net Banking", "COD"]

/-- `(END_DATE - START_DATE).days` for the window 2022-01-01 .. 2024-12-31. -/
def totalDays : Nat := 1095

/-- `N_ORDERS = 5000`. -/
def N_ORDERS : Nat := 5000

attribute [irreducible] N_ORDERS

/-- The 36 months of the generation window, each with its year, month number
and length in days (2024 is a leap year). Dates are modelled as day offsets
from `START_DATE`. -/
def monthTable : List (Nat × Nat × Nat) :=
  [(2022, 1, 31), (2022, 2, 28), (2022, 3, 31), (2022, 4, 30), (2022, 5, 31),
   (2022, 6, 30), (2022, 7, 31), (2022, 8, 31), (2022, 9, 30), (2022, 10, 31),
   (2022, 11, 30), (2022, 12, 31),
   (2023, 1, 31), (2023, 2, 28), (2023, 3, 31), (2023, 4, 30), (2023, 5, 31),
   (2023, 6, 30), (2023, 7, 31), (2023, 8, 31), (2023, 9, 30), (2023, 10, 31),
   (2023, 11, 30), (2023, 12, 31),
   (2024, 1, 31), (2024, 2, 29), (2024, 3, 31), (2024, 4, 30), (2024, 5, 31),
   (2024, 6, 30), (2024, 7, 31), (2024, 8, 31), (2024, 9, 30), (2024, 10, 31),
   (2024, 11, 30), (2024, 12, 31)]

/-- Walk the month table to convert a day offset to `(year, month, day)`. -/
def ymdAux : List (Nat × Nat × Nat) → Nat → Nat × Nat × Nat
  | [], n => (2025, 1, n + 1)
  | (y, m, len) :: rest, n => if n < len then (y, m, n + 1) else ymdAux rest (n - len)

/-- Calendar date `(year, month, day)` of a day offset from `START_DATE`. -/
def ymdOfOffset (n : Nat) : Nat × Nat × Nat := ymdAux monthTable n

/-- `d.month` of a day offset. -/
def monthOfOffset (n : Nat) : Nat := (ymdOfOffset n).2.1

/-- `d.year` of a day offset. -/
def yearOfOffset (n : Nat) : Nat := (ymdOfOffset n).1

/-- Little-endian decimal digits of a natural number (`[]` for 0). -/
def natDigits : Nat → List Nat
  | 0 => []
  | n + 1 => (n + 1) % 10 :: natDigits ((n + 1) / 10)
decreasing_by exact Nat.div_lt_self (Nat.succ_pos n) (by omega)

/-- Value of a little-endian digit list. -/
def natVal : List Nat → Nat
  | [] => 0
  | d :: ds => d + 10 * natVal ds

/-- Decimal rendering of a natural number (the f-string `{n}`). -/
def natStr (n : Nat) : String :=
  if n = 0 then "0" else String.mk ((natDigits n).reverse.map Nat.digitChar)

/-- `f"ORD-{k}"`. -/
def ordId (k : Nat) : String := "ORD-" ++ natStr k

/-- Abbreviated month names, for `strftime("%b %Y")`. -/
def monthAbbrev (m : Nat) : String :=
  (["Jan", "Feb", "Mar", "Apr", "May", "Jun", "Jul", "Aug", "Sep", "Oct",
    "Nov", "Dec"]).getD (m - 1) ""

/-- `date.strftime("%Y-%m-%d")` for a day offset. -/
def dateStr (n : Nat) : String :=
  let ymd := ymdOfOffset n
  natStr ymd.1 ++ "-" ++ natPad2 ymd.2.1 ++ "-" ++ natPad2 ymd.2.2

/-- `date.strftime("%b %Y")` for a day offset. -/
def monthStr (n : Nat) : String :=
  let ymd := ymdOfOffset n
  monthAbbrev ymd.2.1 ++ " " ++ natStr ymd.1

/-- `f"Q{(date.month-1)//3 + 1} {date.year}"` for a day offset. -/
def quarterStr (n : Nat) : String :=
  let ymd := ymdOfOffset n
  "Q" ++ natStr ((ymd.2.1 - 1) / 3 + 1) ++ " " ++ natStr ymd.1

/-- Python `round(q, 2)` on the rational model. -/
def round2 (q : ℚ) : ℚ := (round (q * 100) : ℚ) / 100

/-- One date draw of the generator loop: a uniform offset in the window,
redrawn once with probability 0.3 when the first draw falls in Oct-Dec
(the festival-season resampling step). -/
def genDate (g : RNG) : Nat × RNG :=
  let p := randBelow totalDays g
  if monthOfOffset p.1 ∈ ([10, 11, 12] : List Nat) then
    let q := randFrac p.2
    if q.1 < 3 / 10 then randBelow totalDays q.2 else (p.1, q.2)
  else p

/-- The `N` date draws of the generator, in loop order. -/
def genDates : Nat → RNG → List Nat × RNG
  | 0, g => ([], g)
  | n + 1, g =>
    let p := genDate g
    let q := genDates n p.2
    (p.1 :: q.1, q.2)

/-- One generated order record, with the day offset kept alongside the
serialized `Date` string for specification purposes. -/
structure GenRecord where
  OrderID : String
  dateOff : Nat
  Date : String
  Month : String
  Quarter : String
  Year : Nat
  Category : String
  Product : String
  UnitPrice : ℚ
  Quantity : Nat
  Discount : Nat
  Revenue : ℚ
  Profit : ℚ
  Region : String
  City : String
  Channel : String
  PaymentMethod : String
  Rating : ℚ
  Returned : Nat

/-- The body of the generator's record loop (`data/generate_data.py`
lines 49-87) for emission index `i` and date offset `d`: each `np.random`
call consumes one draw, in source order. -/
def genRecord (i d : Nat) (g0 : RNG) : GenRecord × RNG :=
  let c1 := randChoice CATEGORIES dfltCat g0
  let cat := c1.1
  let c2 := randChoice cat.products "" c1.2
  let product := c2.1
  let c3 := randUniform cat.lo cat.hi c2.2
  let price := round2 c3.1
  let c4 := randChoice ([1, 1, 1, 2, 2, 3] : List Nat) 1 c3.2
  let qty := c4.1
  let c5 := randChoice ([0, 5, 10, 15, 20, 25] : List Nat) 0 c4.2
  let disc := c5.1
  let revenue := round2 (price * (qty : ℚ) * (1 - (disc : ℚ) / 100))
  let c6 := randUniform (15 / 100) (40 / 100) c5.2
  let profit := round2 (revenue * c6.1)
  let c7 := randChoice REGIONS "" c6.2
  let region := c7.1
  let c8 := randChoice (citiesOf region) "" c7.2
  let city := c8.1
  let c9 := randChoice CHANNELS "" c8.2
  let channel := c9.1
  let c10 := randChoice PAYMENT "" c9.2
  let payment := c10.1
  let c11 := randChoice [(3 : ℚ), 7 / 2, 4, 9 / 2, 5] 3 c10.2
  let rating := round1 c11.1
  let c12 := randChoice ([0, 1] : List Nat) 0 c11.2
  let returned := c12.1
  (⟨ordId (10000 + i), d, dateStr d, monthStr d, quarterStr d, yearOfOffset d,
    cat.name, product, price, qty, disc, revenue, profit, region, city, channel,
    payment, rating, returned⟩, c12.2)

/-- The record loop over the sorted dates, threading the RNG and the
enumeration index. -/
def genAll : Nat → List Nat → RNG → List GenRecord × RNG
  | _, [], g => ([], g)
  | i, d :: ds, g =>
    let p := genRecord i d g
    let q := genAll (i + 1) ds p.2
    (p.1 :: q.1, q.2)

/-- The generator pipeline for `n` orders: draw `n` dates, sort them
ascending, then emit one record per date in order. -/
def generateFrom (n : Nat) (g : RNG) : List GenRecord :=
  let p := genDates n g
  (genAll 0 (List.insertionSort (· ≤ ·) p.1) p.2).1

/-- The full generator, at the configured order count `N_ORDERS = 5000`. -/
def generate (g : RNG) : List GenRecord := generateFrom N_ORDERS g

/-- The CSV header written by `df.to_csv(..., index=False)`. -/
def csvHeader : String :=
  "OrderID,Date,Month,Quarter,Year,Category,Product,UnitPrice,Quantity," ++
    "Discount,Revenue,Profit,Region,City,Channel,PaymentMethod,Rating,Returned"

/-- One CSV line of the output file, fields in the fixed column order. -/
def recordLine (r : GenRecord) : String :=
  r.OrderID ++ "," ++ r.Date ++ "," ++ r.Month ++ "," ++ r.Quarter ++ "," ++
    natStr r.Year ++ "," ++ r.Category ++ "," ++ r.Product ++ "," ++
    decStr r.UnitPrice ++ "," ++ natStr r.Quantity ++ "," ++ natStr r.Discount ++
    "," ++ decStr r.Revenue ++ "," ++ decStr r.Profit ++ "," ++ r.Region ++ "," ++
    r.City ++ "," ++ r.Channel ++ "," ++ r.PaymentMethod ++ "," ++
    decStr r.Rating ++ "," ++ natStr r.Returned

/-- The byte content of `sales_data.csv` as a function of the RNG stream. -/
def csvOutput (g : RNG) : String :=
  csvHeader ++ "\n" ++ String.join ((generate g).map fun r => recordLine r ++ "\n")

/-!
## Concrete sample data, used to instantiate the theorems
-/

/-- A sample Electronics order (pays by UPI). -/
def exOrder1 : Order :=
  ⟨"ORD-10000", "2022-01-01", "Jan 2022", "Q1 2022", 2022, "Electronics", "Laptop",
    100, 1, 0, 100, 20, "North", "Delhi", "Website", "UPI", 4, 0, "2022-01",
    "Saturday", 52⟩

/-- A sample Books order. -/
def exOrder2 : Order :=
  ⟨"ORD-10001", "2022-01-02", "Jan 2022", "Q1 2022", 2022, "Books", "Comic",
    10, 1, 0, 10, 2, "South", "Chennai", "Direct", "COD", 5, 0, "2022-01",
    "Sunday", 52⟩

/-- A two-row sample table. -/
def exTable : List Order := [exOrder1, exOrder2]

/-- A filter selection keeping only Electronics rows. -/
def exSpecElec : FilterSpec :=
  ⟨[2022], ["Electronics"], ["North", "South"], ["Website", "Direct"]⟩

/-- A filter selection whose year multiselect is left empty. -/
def exSpecEmptyYears : FilterSpec := ⟨[], ["Electronics"], ["North"], ["Website"]⟩

/-- A sample RNG stream. -/
def exRNG : RNG := ⟨fun k => k * 7919 + 12345, 0⟩

/-!
## Theorems
-/

/-- C1: the filter operation returns exactly the rows whose `Year`,
`Category`, `Region` and `Channel` each belong to the corresponding allowed
set (logical AND of memberships); hence the result is never longer than the
source, and an empty allowed set for any one dimension yields the empty
table. -/
theorem filter_spec_correct (t : List Order) (s : FilterSpec) :
    (∀ r, r ∈ fdf t s ↔ r ∈ t ∧ r.Year ∈ s.years ∧ r.Category ∈ s.categories ∧
      r.Region ∈ s.regions ∧ r.Channel ∈ s.channels) ∧
    (fdf t s).length ≤ t.length ∧
    ((s.years = [] ∨ s.categories = [] ∨ s.regions = [] ∨ s.channels = []) →
      fdf t s = []) := by
  refine ⟨fun r => ?_, List.length_filter_le _ t, fun h => ?_⟩
  · simp [fdf, List.mem_filter, List.elem_iff, and_assoc]
  · rcases h with h | h | h | h <;> simp [fdf, h]

/-- Witness for C1: filtering the sample table with an empty year selection
yields the empty table. -/
theorem filter_spec_correct_witness : fdf exTable exSpecEmptyYears = [] :=
  (filter_spec_correct exTable exSpecEmptyYears).2.2 (Or.inl rfl)

/-- C2 counterexample: on the empty filtered table the average order value is
`NaN` (pandas mean of an empty column, modelled `none`), not the claimed 0;
only the profit margin is guarded. -/
theorem avg_order_empty_counterexample :
    avg_order ([] : List Order) = none ∧ avg_order ([] : List Order) ≠ some 0 := by
  exact ⟨rfl, by decide⟩

/-- C2 amended: on the empty filtered table the profit margin is 0 and the
average order value is undefined (`NaN`, modelled `none`) rather than 0 —
neither raises; when total revenue is positive the profit margin equals
total profit / total revenue × 100. -/
theorem kpi_guard (t : List Order) :
    (t = [] → profit_margin t = 0 ∧ avg_order t = none) ∧
    (0 < total_rev t → profit_margin t = total_profit t / total_rev t * 100) := by
  constructor
  · intro h
    subst h
    constructor
    · simp [profit_margin, total_rev]
    · rfl
  · intro h
    simp [profit_margin, h]

/-- Witness for C2: the guards evaluated on the empty table. -/
theorem kpi_guard_witness : profit_margin [] = 0 ∧ avg_order [] = none :=
  (kpi_guard []).1 rfl

/-- Splitting a list by a predicate splits the sum of a rational measure. -/
theorem sum_map_filter_split {α : Type} (f : α → ℚ) (p : α → Bool) (l : List α) :
    ((l.filter p).map f).sum + ((l.filter fun a => !(p a)).map f).sum =
      (l.map f).sum := by
  induction l with
  | nil => simp
  | cons a l ih => cases h : p a <;> simp [h, ← ih] <;> ring

/-- Summing a measure group-by-group over a duplicate-free list of keys that
covers the table equals summing it over the whole table. -/
theorem sum_map_over_keys {α : Type} (f : α → ℚ) (key : α → String) :
    ∀ (ks : List String) (l : List α), ks.Nodup → (∀ a ∈ l, key a ∈ ks) →
      (ks.map fun c => ((l.filter fun a => key a == c).map f).sum).sum =
        (l.map f).sum := by
  intro ks
  induction ks with
  | nil =>
    intro l _ hcov
    have hl : l = [] := by
      cases l with
      | nil => rfl
      | cons a l => exact absurd (hcov a (List.mem_cons_self a l)) (List.not_mem_nil _)
    simp [hl]
  | cons k ks ih =>
    intro l hnd hcov
    have hk : k ∉ ks := (List.nodup_cons.mp hnd).1
    have hrest : ∀ c ∈ ks,
        (l.filter fun a => key a == c) =
          ((l.filter fun a => !(key a == k)).filter fun a => key a == c) := by
      intro c hc
      rw [List.filter_filter]
      refine (List.filter_congr fun a _ => ?_).symm
      cases hkc : key a == c with
      | false => simp [hkc]
      | true =>
        have : key a = c := by simpa using hkc
        have : ¬(key a == k) = true := by
          simp [this]
          intro hck
          exact hk (hck ▸ hc)
        simp [hkc, this]
    have hmap : (ks.map fun c => ((l.filter fun a => key a == c).map f).sum) =
        (ks.map fun c =>
          (((l.filter fun a => !(key a == k)).filter fun a => key a == c).map f).sum) :=
      List.map_congr_left fun c hc => by rw [← hrest c hc]
    have hcov' : ∀ a ∈ (l.filter fun a => !(key a == k)), key a ∈ ks := by
      intro a ha
      have h1 := List.mem_filter.mp ha
      have h2 := hcov a h1.1
      cases List.mem_cons.mp h2 with
      | inl h =>
        have hkk : (key a == k) = true := by simp [h]
        exact absurd hkk (by simpa using h1.2)
      | inr h => exact h
    calc ((l.filter fun a => key a == k).map f).sum +
          (ks.map fun c => ((l.filter fun a => key a == c).map f).sum).sum
        = ((l.filter fun a => key a == k).map f).sum +
          (((l.filter fun a => !(key a == k))).map f).sum := by
          rw [hmap, ih _ (List.nodup_cons.mp hnd).2 hcov']
      _ = (l.map f).sum := sum_map_filter_split f _ l

/-- The group keys are duplicate-free. -/
theorem groupKeys_nodup (key : Order → String) (t : List Order) :
    (groupKeys key t).Nodup :=
  ((List.perm_insertionSort _ _).nodup_iff).mpr (List.nodup_dedup _)

/-- Every row's key appears among the group keys. -/
theorem mem_groupKeys (key : Order → String) (t : List Order) (r : Order)
    (hr : r ∈ t) : key r ∈ groupKeys key t := by
  rw [groupKeys, (List.perm_insertionSort _ _).mem_iff, List.mem_dedup]
  exact List.mem_map_of_mem key hr

/-- Membership in the group keys means the key occurs in the table. -/
theorem of_mem_groupKeys {key : Order → String} {t : List Order} {c : String}
    (hc : c ∈ groupKeys key t) : c ∈ t.map key := by
  rw [groupKeys, (List.perm_insertionSort _ _).mem_iff, List.mem_dedup] at hc
  exact hc

/-- C5: the per-category revenues of the category-breakdown view sum to the
total revenue of the filtered table — grouping by category partitions the
rows, and summing revenue over the partition is exact (no tolerance needed
on rationals). -/
theorem category_breakdown_sums (t : List Order) :
    ((cat_rev t).map Prod.snd).sum = total_rev t := by
  have hperm : ((cat_rev t).map Prod.snd).Perm
      (((groupKeys Order.Category t).map fun c =>
        (c, ((t.filter fun r => r.Category == c).map Order.Revenue).sum)).map Prod.snd) :=
    (List.perm_insertionSort _ _).map Prod.snd
  rw [hperm.sum_eq, List.map_map]
  exact sum_map_over_keys Order.Revenue Order.Category (groupKeys Order.Category t) t
    (groupKeys_nodup _ t) (fun r hr => mem_groupKeys _ t r hr)

/-- C4: the day-of-week view has exactly 7 rows, in the fixed calendar order
Monday..Sunday, and a day absent from the filtered data still appears, with
`NaN` (null) measures rather than being omitted. -/
theorem dow_view_correct (t : List Order) :
    (dowView t).length = 7 ∧
    (dowView t).map Prod.fst = dow_order ∧
    (∀ d ∈ dow_order, (∀ r ∈ t, r.DayOfWeek ≠ d) →
      (d, (none : Option (Nat × ℚ))) ∈ dowView t) := by
  refine ⟨by simp [dowView, dow_order],
    by rw [dowView, List.map_map]
       exact (List.map_congr_left fun d _ => rfl).trans (List.map_id _),
    fun d hd habs => ?_⟩
  have hfil : (t.filter fun r => r.DayOfWeek == d) = [] :=
    List.filter_eq_nil_iff.mpr fun r hr => by simpa using habs r hr
  have : (d, (none : Option (Nat × ℚ))) =
      (fun d => (d, if (t.filter fun r => r.DayOfWeek == d).isEmpty then none
        else some ((t.filter fun r => r.DayOfWeek == d).length,
          ((t.filter fun r => r.DayOfWeek == d).map Order.Revenue).sum))) d := by
    simp [hfil]
  rw [dowView, this]
  exact List.mem_map_of_mem _ hd

/-- Witness for C4: on the empty table Monday appears with null measures. -/
theorem dow_view_correct_witness :
    ("Monday", (none : Option (Nat × ℚ))) ∈ dowView [] :=
  (dow_view_correct []).2.2 "Monday" (by decide)
    (fun r hr => absurd hr (List.not_mem_nil r))

/-- C3 counterexample: `Books` is a category of the source table with zero
filtered orders, yet the return-rate view over the filtered table contains no
`Books` row at all — `groupby` drops empty groups, so the category is absent
rather than present with rate 0. -/
theorem returns_view_missing_category :
    "Books" ∈ exTable.map Order.Category ∧
    (fdf exTable exSpecElec).map Order.Category = ["Electronics"] ∧
    "Books" ∉ (returnsView (fdf exTable exSpecElec)).map (fun row => row.1) := by
  decide

/-- C3 amended: every row of the return-rate view belongs to a category that
occurs in the filtered table (so its order count is positive and no division
error can occur), its rate equals returns / orders × 100 rounded to one
decimal, rows are sorted descending by rate, and the categories appearing are
exactly those with at least one filtered order — a category with zero
filtered orders is absent from the view, not shown with rate 0. -/
theorem returns_view_correct (t : List Order) :
    List.Sorted rateRel (returnsView t) ∧
    (∀ row ∈ returnsView t,
      0 < row.2.1 ∧
      row.2.1 = (t.filter fun r => r.Category == row.1).length ∧
      row.2.2.1 = ((t.filter fun r => r.Category == row.1).map Order.Returned).sum ∧
      row.2.2.2 = round1 ((row.2.2.1 : ℚ) / (row.2.1 : ℚ) * 100)) ∧
    (∀ c, c ∈ (returnsView t).map (fun row => row.1) ↔ c ∈ t.map Order.Category) := by
  refine ⟨List.sorted_insertionSort rateRel _, fun row hrow => ?_, fun c => ?_⟩
  · rw [returnsView, (List.perm_insertionSort _ _).mem_iff] at hrow
    obtain ⟨c, hc, hrc⟩ := List.mem_map.mp hrow
    obtain ⟨r, hr, hrk⟩ := by
      have := of_mem_groupKeys hc
      exact List.mem_map.mp this
    subst hrc
    refine ⟨?_, rfl, rfl, rfl⟩
    have : r ∈ t.filter fun x => x.Category == c :=
      List.mem_filter.mpr ⟨hr, by simp [hrk]⟩
    exact List.length_pos.mpr fun hnil => by simp [hnil] at this
  · have hp : (returnsView t).Perm
        ((groupKeys Order.Category t).map fun c =>
          let g := t.filter fun r => r.Category == c
          let rets := (g.map Order.Returned).sum
          (c, g.length, rets, round1 ((rets : ℚ) / (g.length : ℚ) * 100))) := by
      rw [returnsView]
      exact List.perm_insertionSort _ _
    rw [(hp.map fun row => row.1).mem_iff, List.map_map]
    constructor
    · intro hc
      obtain ⟨k, hk, hkc⟩ := List.mem_map.mp hc
      exact hkc ▸ of_mem_groupKeys hk
    · intro hc
      obtain ⟨r, hr, hrc⟩ := List.mem_map.mp hc
      exact List.mem_map.mpr ⟨c, hrc ▸ mem_groupKeys Order.Category t r hr, rfl⟩

/-- Witness for C3: the first row of the sample view has a positive order
count. -/
theorem returns_view_correct_witness :
    0 < ((returnsView (fdf exTable exSpecElec)).getD 0 ("", 1, 0, 0)).2.1 :=
  ((returns_view_correct (fdf exTable exSpecElec)).2.1 _
    (List.mem_cons_self _ _)).1

/-- C6 counterexample: searching `"upi"` keeps the sample row because its
`PaymentMethod` column (searched, but not displayed) matches, while no
displayed column's string representation contains the term — so "included iff
some displayed column matches" is false. -/
theorem search_scope_counterexample :
    searchFilter "upi" [exOrder1] = [exOrder1] ∧
    ((displayStrings exOrder1).any fun c => containsCI c "upi") = false := by
  decide

/-- C6 amended: the search is applied to every column of the filtered table
(including columns that are not displayed, such as `PaymentMethod`), the
term being interpreted as a case-insensitive regular expression; for an
ASCII search term free of regex metacharacters — where the regex search is
exactly case-insensitive substring containment — a row is included iff some
column's string representation (the datetime `Date` column rendered with
its midnight time suffix) contains the term; an empty search term applies
no filtering. -/
theorem search_filter_correct (term : String) (t : List Order) :
    (term = "" → searchFilter term t = t) ∧
    (literalTerm term = true →
      ∀ r, r ∈ searchFilter term t ↔
        r ∈ t ∧ (term = "" ∨ ((rowStrings r).any fun c => containsCI c term) = true)) := by
  constructor
  · intro h
    simp [searchFilter, h]
  · intro _ r
    by_cases h : term = ""
    · simp [searchFilter, h]
    · simp [searchFilter, h, List.mem_filter]

/-- Witness for C6: the empty search term leaves the sample table unchanged,
and the plain term `"upi"` keeps the sample row by matching its (searched,
non-displayed) `PaymentMethod` column. -/
theorem search_filter_correct_witness :
    searchFilter "" [exOrder1] = [exOrder1] ∧
    (exOrder1 ∈ searchFilter "upi" [exOrder1] ↔
      exOrder1 ∈ [exOrder1] ∧
        ("upi" = "" ∨ ((rowStrings exOrder1).any fun c => containsCI c "upi") = true)) :=
  ⟨(search_filter_correct "" [exOrder1]).1 rfl,
    (search_filter_correct "upi" [exOrder1]).2 (by decide) exOrder1⟩

/-- Rounding to two decimals preserves nonnegativity. -/
theorem round2_nonneg {q : ℚ} (h : 0 ≤ q) : 0 ≤ round2 q := by
  unfold round2
  have h1 : (0 : ℤ) ≤ round (q * 100) := by
    rw [round_eq]
    exact Int.floor_nonneg.mpr (by positivity)
  have h2 : (0 : ℚ) ≤ (round (q * 100) : ℚ) := by exact_mod_cast h1
  positivity

/-- A weighted choice from a nonempty list lands in the list. -/
theorem randChoice_mem {α : Type} (l : List α) (d : α) (g : RNG) (h : l ≠ []) :
    (randChoice l d g).1 ∈ l := by
  have hlen : 0 < l.length := List.length_pos.mpr h
  have hidx : g.next.1 % l.length < l.length := Nat.mod_lt _ hlen
  simp only [randChoice]
  rw [List.getD_eq_getElem l d hidx]
  exact List.getElem_mem hidx

/-- The `rand()` model produces a fraction in `[0, 1)`. -/
theorem randFrac_bounds (g : RNG) : 0 ≤ (randFrac g).1 ∧ (randFrac g).1 < 1 := by
  simp only [randFrac]
  refine ⟨by positivity, ?_⟩
  rw [div_lt_one (by norm_num)]
  have h : g.next.1 % 10000 < 10000 := Nat.mod_lt _ (by norm_num)
  exact_mod_cast h

/-- The `uniform(lo, hi)` model produces a value in `[lo, hi)`. -/
theorem randUniform_bounds (lo hi : ℚ) (g : RNG) (h : lo < hi) :
    lo ≤ (randUniform lo hi g).1 ∧ (randUniform lo hi g).1 < hi := by
  obtain ⟨h0, h1⟩ := randFrac_bounds g
  simp only [randUniform]
  constructor
  · nlinarith
  · nlinarith

/-- `randint(0, bound)` is below the bound. -/
theorem randBelow_lt (b : Nat) (g : RNG) (h : 0 < b) : (randBelow b g).1 < b := by
  simp only [randBelow]
  exact Nat.mod_lt _ h

/-- Every date draw lies inside the generation window. -/
theorem genDate_lt (g : RNG) : (genDate g).1 < totalDays := by
  unfold genDate
  dsimp only
  split_ifs
  · exact randBelow_lt _ _ (by norm_num [totalDays])
  · exact randBelow_lt _ _ (by norm_num [totalDays])
  · exact randBelow_lt _ _ (by norm_num [totalDays])

/-- The generator draws exactly `n` dates. -/
theorem genDates_length (n : Nat) : ∀ g : RNG, (genDates n g).1.length = n := by
  induction n with
  | zero => intro g; rfl
  | succ n ih => intro g; simp only [genDates, List.length_cons, ih]

/-- All drawn dates lie inside the generation window. -/
theorem genDates_lt (n : Nat) : ∀ (g : RNG), ∀ d ∈ (genDates n g).1, d < totalDays := by
  induction n with
  | zero => intro g d hd; cases hd
  | succ n ih =>
    intro g d hd
    simp only [genDates, List.mem_cons] at hd
    cases hd with
    | inl h => exact h ▸ genDate_lt g
    | inr h => exact ih _ d h

/-- The record loop emits one record per date. -/
theorem genAll_length (ds : List Nat) : ∀ (i : Nat) (g : RNG),
    (genAll i ds g).1.length = ds.length := by
  induction ds with
  | nil => intro i g; rfl
  | cons d ds ih => intro i g; simp only [genAll, List.length_cons, ih]

/-- The emitted records carry exactly the given dates, in order. -/
theorem genAll_map_dateOff (ds : List Nat) : ∀ (i : Nat) (g : RNG),
    (genAll i ds g).1.map GenRecord.dateOff = ds := by
  induction ds with
  | nil => intro i g; rfl
  | cons d ds ih =>
    intro i g
    simp only [genAll, List.map_cons, ih]
    rfl

/-- The emitted order identifiers are the incrementing counter strings. -/
theorem genAll_map_orderID (ds : List Nat) : ∀ (i : Nat) (g : RNG),
    (genAll i ds g).1.map GenRecord.OrderID =
      (List.range ds.length).map fun k => ordId (10000 + (i + k)) := by
  induction ds with
  | nil => intro i g; rfl
  | cons d ds ih =>
    intro i g
    simp only [genAll, List.map_cons, List.length_cons, List.range_succ_eq_map,
      List.map_map, ih]
    rw [List.cons_eq_cons]
    exact ⟨congrArg ordId (by omega),
      List.map_congr_left fun k _ => congrArg ordId (by omega)⟩

/-- Every emitted record is produced by `genRecord`. -/
theorem genAll_mem (ds : List Nat) : ∀ (i : Nat) (g : RNG),
    ∀ r ∈ (genAll i ds g).1, ∃ j d g', d ∈ ds ∧ r = (genRecord j d g').1 := by
  induction ds with
  | nil => intro i g r hr; cases hr
  | cons d ds ih =>
    intro i g r hr
    simp only [genAll, List.mem_cons] at hr
    cases hr with
    | inl h => exact ⟨i, d, g, List.mem_cons_self d ds, h⟩
    | inr h =>
      obtain ⟨j, d', g', hd', hr'⟩ := ih (i + 1) (genRecord i d g).2 r h
      exact ⟨j, d', g', List.mem_cons_of_mem d hd', hr'⟩

/-- The digit list evaluates back to the number. -/
theorem natVal_natDigits : ∀ n, natVal (natDigits n) = n := by
  intro n
  induction n using Nat.strong_induction_on with
  | _ n ih =>
    match n with
    | 0 => simp [natDigits, natVal]
    | m + 1 =>
      rw [natDigits, natVal, ih ((m + 1) / 10) (Nat.div_lt_self (Nat.succ_pos m) (by omega))]
      omega

/-- Every decimal digit is below 10. -/
theorem natDigits_lt : ∀ n, ∀ d ∈ natDigits n, d < 10 := by
  intro n
  induction n using Nat.strong_induction_on with
  | _ n ih =>
    match n with
    | 0 => intro d hd; rw [natDigits] at hd; cases hd
    | m + 1 =>
      intro d hd
      rw [natDigits] at hd
      cases List.mem_cons.mp hd with
      | inl h => omega
      | inr h => exact ih ((m + 1) / 10) (Nat.div_lt_self (Nat.succ_pos m) (by omega)) d h

/-- `Nat.digitChar` is injective on decimal digits. -/
theorem digitChar_inj_fin : ∀ d e : Fin 10, Nat.digitChar d.val = Nat.digitChar e.val → d = e := by
  decide

/-- Mapping `digitChar` over decimal-digit lists is injective. -/
theorem map_digitChar_inj : ∀ xs ys : List Nat, (∀ x ∈ xs, x < 10) → (∀ y ∈ ys, y < 10) →
    xs.map Nat.digitChar = ys.map Nat.digitChar → xs = ys := by
  intro xs
  induction xs with
  | nil =>
    intro ys _ _ h
    cases ys with
    | nil => rfl
    | cons y ys => simp at h
  | cons x xs ih =>
    intro ys hx hy h
    cases ys with
    | nil => simp at h
    | cons y ys =>
      simp only [List.map_cons, List.cons_eq_cons] at h
      have hxy : x = y := by
        have hx10 : x < 10 := hx x (List.mem_cons_self x xs)
        have hy10 : y < 10 := hy y (List.mem_cons_self y ys)
        have := digitChar_inj_fin ⟨x, hx10⟩ ⟨y, hy10⟩ h.1
        exact congrArg Fin.val this
      rw [List.cons_eq_cons]
      exact ⟨hxy, ih ys (fun a ha => hx a (List.mem_cons_of_mem x ha))
        (fun a ha => hy a (List.mem_cons_of_mem y ha)) h.2⟩

/-- The decimal rendering is injective on positive numbers. -/
theorem natStr_inj_pos {n m : Nat} (hn : 0 < n) (hm : 0 < m)
    (h : natStr n = natStr m) : n = m := by
  unfold natStr at h
  rw [if_neg (by omega), if_neg (by omega)] at h
  have hdata : (natDigits n).reverse.map Nat.digitChar =
      (natDigits m).reverse.map Nat.digitChar := congrArg String.data h
  have hrev : (natDigits n).reverse = (natDigits m).reverse :=
    map_digitChar_inj _ _ (fun x hx => natDigits_lt n x (List.mem_reverse.mp hx))
      (fun y hy => natDigits_lt m y (List.mem_reverse.mp hy)) hdata
  have hdig : natDigits n = natDigits m := List.reverse_injective hrev
  rw [← natVal_natDigits n, ← natVal_natDigits m, hdig]

/-- Order identifiers are injective in the counter. -/
theorem ordId_inj_pos {n m : Nat} (hn : 0 < n) (hm : 0 < m)
    (h : ordId n = ordId m) : n = m := by
  unfold ordId at h
  have hdata : ("ORD-").data ++ (natStr n).data = ("ORD-").data ++ (natStr m).data :=
    congrArg String.data h
  have : (natStr n).data = (natStr m).data := List.append_cancel_left hdata
  exact natStr_inj_pos hn hm (congrArg String.mk this)

/-- Reference-data facts used by the record lemma: price ranges are
nonnegative and nondegenerate, product lookup matches, and all lists drawn
from are nonempty. -/
theorem CATEGORIES_facts : ∀ c ∈ CATEGORIES,
    0 ≤ c.lo ∧ c.lo < c.hi ∧ productsOf c.name = c.products ∧ c.products ≠ [] := by
  decide

/-- Every region's city list is nonempty. -/
theorem citiesOf_ne_nil : ∀ rg ∈ REGIONS, citiesOf rg ≠ [] := by decide

/-- One generated record satisfies all per-record invariants and derivation
formulas of the data model. -/
theorem genRecord_ok (i d : Nat) (g : RNG) :
    0 ≤ (genRecord i d g).1.Revenue ∧ 0 ≤ (genRecord i d g).1.Profit ∧
    (genRecord i d g).1.City ∈ citiesOf (genRecord i d g).1.Region ∧
    (genRecord i d g).1.Product ∈ productsOf (genRecord i d g).1.Category ∧
    (genRecord i d g).1.dateOff = d ∧
    (genRecord i d g).1.OrderID = ordId (10000 + i) ∧
    (genRecord i d g).1.Revenue = round2 ((genRecord i d g).1.UnitPrice *
      ((genRecord i d g).1.Quantity : ℚ) * (1 - ((genRecord i d g).1.Discount : ℚ) / 100)) ∧
    ∃ m, 15 / 100 ≤ m ∧ m ≤ 40 / 100 ∧
      (genRecord i d g).1.Profit = round2 ((genRecord i d g).1.Revenue * m) := by
  have hcat : (randChoice CATEGORIES dfltCat g).1 ∈ CATEGORIES :=
    randChoice_mem _ _ _ (by decide)
  obtain ⟨hlo, hlohi, hpe, hpne⟩ := CATEGORIES_facts _ hcat
  have hdisc : ∀ x ∈ ([0, 5, 10, 15, 20, 25] : List Nat), x ≤ 25 := by decide
  unfold genRecord
  dsimp only
  refine ⟨?_, ?_, ?_, ?_, rfl, rfl, rfl, ?_⟩
  · apply round2_nonneg
    apply mul_nonneg (mul_nonneg
      (round2_nonneg (le_trans hlo (randUniform_bounds _ _ _ hlohi).1))
      (Nat.cast_nonneg _))
    have hd : ((randChoice ([0, 5, 10, 15, 20, 25] : List Nat) 0
        (randChoice ([1, 1, 1, 2, 2, 3] : List Nat) 1
          (randUniform (randChoice CATEGORIES dfltCat g).1.lo
            (randChoice CATEGORIES dfltCat g).1.hi
            (randChoice (randChoice CATEGORIES dfltCat g).1.products ""
              (randChoice CATEGORIES dfltCat g).2).2).2).2).1 : ℚ) ≤ 25 := by
      exact_mod_cast hdisc _ (randChoice_mem _ _ _ (by decide))
    linarith
  · apply round2_nonneg
    apply mul_nonneg
    · apply round2_nonneg
      apply mul_nonneg (mul_nonneg
        (round2_nonneg (le_trans hlo (randUniform_bounds _ _ _ hlohi).1))
        (Nat.cast_nonneg _))
      have hd : ((randChoice ([0, 5, 10, 15, 20, 25] : List Nat) 0
          (randChoice ([1, 1, 1, 2, 2, 3] : List Nat) 1
            (randUniform (randChoice CATEGORIES dfltCat g).1.lo
              (randChoice CATEGORIES dfltCat g).1.hi
              (randChoice (randChoice CATEGORIES dfltCat g).1.products ""
                (randChoice CATEGORIES dfltCat g).2).2).2).2).1 : ℚ) ≤ 25 := by
        exact_mod_cast hdisc _ (randChoice_mem _ _ _ (by decide))
      linarith
    · exact le_trans (by norm_num) (randUniform_bounds _ _ _ (by norm_num)).1
  · exact randChoice_mem _ _ _ (citiesOf_ne_nil _ (randChoice_mem _ _ _ (by decide)))
  · rw [hpe]
    exact randChoice_mem _ _ _ hpne
  · refine ⟨_, ?_, ?_, rfl⟩
    · exact (randUniform_bounds _ _ _ (by norm_num)).1
    · exact le_of_lt (randUniform_bounds _ _ _ (by norm_num)).2

/-- C7: the generator is deterministic — it is a pure function of the seeded
RNG stream (its only input), so two runs from the same seed state produce
byte-identical CSV output. -/
theorem generator_deterministic (g1 g2 : RNG) (h : g1 = g2) :
    csvOutput g1 = csvOutput g2 := by
  rw [h]

/-- Witness for C7: two runs from the sample stream agree. -/
theorem generator_deterministic_witness : csvOutput exRNG = csvOutput exRNG :=
  generator_deterministic exRNG exRNG rfl

/-- The generator pipeline invariants, for any order count `n`. -/
theorem generateFrom_invariants (n : Nat) (g : RNG) :
    (generateFrom n g).length = n ∧
    (generateFrom n g).map GenRecord.OrderID =
      (List.range n).map (fun i => ordId (10000 + i)) ∧
    ((generateFrom n g).map GenRecord.OrderID).Nodup ∧
    ((generateFrom n g).map GenRecord.dateOff).Sorted (· ≤ ·) ∧
    List.Forall (fun r => 0 ≤ r.Revenue ∧ 0 ≤ r.Profit ∧
      r.City ∈ citiesOf r.Region ∧ r.Product ∈ productsOf r.Category ∧
      r.dateOff < totalDays) (generateFrom n g) := by
  have hslen : (List.insertionSort (· ≤ ·) (genDates n g).1).length = n := by
    rw [(List.perm_insertionSort _ _).length_eq, genDates_length]
  have h2 : (generateFrom n g).map GenRecord.OrderID =
      (List.range n).map (fun i => ordId (10000 + i)) := by
    rw [generateFrom]
    rw [genAll_map_orderID, hslen]
    exact List.map_congr_left fun k _ => congrArg ordId (by omega)
  refine ⟨?_, h2, ?_, ?_, ?_⟩
  · rw [generateFrom]
    rw [genAll_length, hslen]
  · rw [h2]
    refine (List.nodup_range n).map_on ?_
    intro x _ y _ hxy
    have := ordId_inj_pos (n := 10000 + x) (m := 10000 + y) (by omega) (by omega) hxy
    omega
  · rw [generateFrom]
    rw [genAll_map_dateOff]
    exact List.sorted_insertionSort (· ≤ ·) _
  · rw [List.forall_iff_forall_mem]
    intro r hr
    rw [generateFrom] at hr
    obtain ⟨j, d', g', hd, hre⟩ := genAll_mem _ _ _ r hr
    have h := genRecord_ok j d' g'
    have hdlt : d' < totalDays := by
      rw [(List.perm_insertionSort _ _).mem_iff] at hd
      exact genDates_lt n g d' hd
    subst hre
    exact ⟨h.1, h.2.1, h.2.2.1, h.2.2.2.1, h.2.2.2.2.1 ▸ hdlt⟩

/-- The configured generator is the pipeline at `N_ORDERS`. -/
theorem generate_eq (g : RNG) : generate g = generateFrom N_ORDERS g := rfl

/-- C8: every generated table satisfies the invariants — 5000 records; order
identifiers are the dense incrementing counter `ORD-(10000+i)` in emission
order, hence unique; records are emitted in ascending date order; and each
record has nonnegative revenue and profit, a city from its region's city
list, a product from its category's product list, and a date inside the
generation window. -/
theorem generator_invariants (g : RNG) :
    (generate g).length = N_ORDERS ∧
    (generate g).map GenRecord.OrderID =
      (List.range N_ORDERS).map (fun i => ordId (10000 + i)) ∧
    ((generate g).map GenRecord.OrderID).Nodup ∧
    ((generate g).map GenRecord.dateOff).Sorted (· ≤ ·) ∧
    List.Forall (fun r => 0 ≤ r.Revenue ∧ 0 ≤ r.Profit ∧
      r.City ∈ citiesOf r.Region ∧ r.Product ∈ productsOf r.Category ∧
      r.dateOff < totalDays) (generate g) := by
  rw [generate_eq]
  exact generateFrom_invariants N_ORDERS g

/-- The derivation formulas hold for the pipeline at any order count `n`. -/
theorem generateFrom_formulas (n : Nat) (g : RNG) :
    List.Forall (fun r =>
      r.Revenue = round2 (r.UnitPrice * (r.Quantity : ℚ) * (1 - (r.Discount : ℚ) / 100)) ∧
      ∃ m, 15 / 100 ≤ m ∧ m ≤ 40 / 100 ∧ r.Profit = round2 (r.Revenue * m))
      (generateFrom n g) := by
  rw [List.forall_iff_forall_mem]
  intro r hr
  rw [generateFrom] at hr
  obtain ⟨j, d', g', _, hre⟩ := genAll_mem _ _ _ r hr
  have h := genRecord_ok j d' g'
  subst hre
  exact ⟨h.2.2.2.2.2.2.1, h.2.2.2.2.2.2.2⟩

/-- C9: every generated record's revenue equals
`round(unitPrice * quantity * (1 - discount/100), 2)` and its profit equals
`round(revenue * m, 2)` for some margin fraction `m` in `[0.15, 0.40]`. -/
theorem generator_formulas (g : RNG) :
    List.Forall (fun r =>
      r.Revenue = round2 (r.UnitPrice * (r.Quantity : ℚ) * (1 - (r.Discount : ℚ) / 100)) ∧
      ∃ m, 15 / 100 ≤ m ∧ m ≤ 40 / 100 ∧ r.Profit = round2 (r.Revenue * m))
      (generate g) :=
  generateFrom_formulas N_ORDERS g

/-- C10: filtering is idempotent — applying the same filter specification to
an already-filtered table changes nothing — and the filtered table is a
sublist of the source (relative order of surviving rows is preserved). -/
theorem filter_idempotent (t : List Order) (s : FilterSpec) :
    fdf (fdf t s) s = fdf t s ∧ (fdf t s).Sublist t := by
  constructor
  · exact List.filter_eq_self.mpr fun r hr => (List.mem_filter.mp hr).2
  · exact List.filter_sublist t

end SalesDash
